import Mathlib

/-!
Formal model of the Hugoniot equation-of-state code in `src/components.py` of the
Slurry-Maker repository.  Floating-point arithmetic is modelled by exact real
arithmetic; Lean's conventions `x / 0 = 0` and `Real.sqrt x = 0` for `x < 0` stand
in for the IEEE special values, and the predicate `HugoniotEOS.solve_upNaN`
characterises exactly the inputs on which the numpy expression in `solve_up`
evaluates to a NaN.  Numpy arrays become `List ℝ`, with elementwise operations as
`List.map` / `List.zipWith`; Python exceptions become `Except`.
-/

open scoped BigOperators

noncomputable section

/-- Python dataclass `HugoniotEOS` with fields `name`, `rho0`, `C0`, `S`. -/
structure HugoniotEOS where
  name : String
  rho0 : ℝ
  C0 : ℝ
  S : ℝ

namespace HugoniotEOS

/-- Method `hugoniot_eos`: `Us = C0 + S * up`. -/
def hugoniot_eos (m : HugoniotEOS) (up : ℝ) : ℝ := m.C0 + m.S * up

/-- Method `hugoniot_P`: `P = rho0 * Us * up` with `Us = hugoniot_eos(up)`. -/
def hugoniot_P (m : HugoniotEOS) (up : ℝ) : ℝ := m.rho0 * m.hugoniot_eos up * up

/-- Method `solve_up`: with `a = S`, `b = C0`, `c = -P / rho0`, the code returns
`(-b + np.sqrt(b**2 - 4*a*c)) / (2*a)` unconditionally (no `S = 0` special case and
no domain check on the discriminant). -/
def solve_up (m : HugoniotEOS) (P : ℝ) : ℝ :=
  (-m.C0 + Real.sqrt (m.C0 ^ 2 - 4 * m.S * (-P / m.rho0))) / (2 * m.S)

/-- The set of inputs on which the floating-point expression inside `solve_up`
evaluates to NaN rather than a finite float: `np.sqrt` of a negative discriminant
yields NaN (which then propagates through the quotient), and when the denominator
`2*S` is zero while the numerator `-C0 + sqrt(C0^2 - 4*a*c)` is exactly zero the
quotient is `0/0`, which is NaN.  In both cases numpy emits a runtime warning and
returns NaN; no exception is ever raised by `solve_up`. -/
def solve_upNaN (m : HugoniotEOS) (P : ℝ) : Prop :=
  m.C0 ^ 2 - 4 * m.S * (-P / m.rho0) < 0 ∨
    (2 * m.S = 0 ∧ -m.C0 + Real.sqrt (m.C0 ^ 2 - 4 * m.S * (-P / m.rho0)) = 0)

/-- Key algebraic fact behind the round-trip property: for a material with
positive `rho0`, `C0` and strictly positive `S`, inverting the Hugoniot at the
pressure generated by a nonnegative particle velocity recovers that velocity
exactly (the discriminant is the perfect square `(C0 + 2*S*up)^2`). -/
lemma solve_up_hugoniot_P (m : HugoniotEOS) (hrho : 0 < m.rho0) (hC : 0 < m.C0)
    (hS : 0 < m.S) (up : ℝ) (hup : 0 ≤ up) :
    m.solve_up (m.hugoniot_P up) = up := by
  unfold solve_up hugoniot_P hugoniot_eos
  have hr0 : m.rho0 ≠ 0 := ne_of_gt hrho
  have hdisc : m.C0 ^ 2 - 4 * m.S * (-(m.rho0 * (m.C0 + m.S * up) * up) / m.rho0)
      = (m.C0 + 2 * m.S * up) ^ 2 := by
    field_simp
    ring
  have hpos : 0 ≤ m.C0 + 2 * m.S * up := by
    have h2 : 0 ≤ 2 * m.S * up :=
      mul_nonneg (mul_nonneg (by norm_num) hS.le) hup
    linarith
  rw [hdisc, Real.sqrt_sq hpos]
  have hS0 : 2 * m.S ≠ 0 := by positivity
  field_simp

end HugoniotEOS

/-- Python dataclass `MixedHugoniotEOS(HugoniotEOS)` with the extra fields
`components` and `vfracs`; both mixture generators also attach an `mfracs`
attribute to the object before returning it, so it appears as a field here. -/
structure MixedHugoniotEOS where
  name : String
  rho0 : ℝ
  C0 : ℝ
  S : ℝ
  components : List String
  vfracs : List ℝ
  mfracs : List ℝ

/-- Function `convert_volfrac_to_massfrac`. -/
def convert_volfrac_to_massfrac (rho1 rho2 Vx1 : ℝ) : ℝ :=
  let mass_1 := rho1 * Vx1
  let mass_2 := rho2 * (1 - Vx1)
  mass_1 / (mass_1 + mass_2)

/-- Model of the library call `np.polyfit(x, y, 1)` used in
`generate_mixed_hugoniot`: it raises `TypeError` when `x` is empty, otherwise it
returns `[slope, intercept]` of the ordinary-least-squares line through the
points, written here through the normal equations (Cramer's rule).  numpy's
minimum-norm answer on a singular normal system is not modelled; every theorem
that uses the `.ok` branch assumes a non-singular system. -/
def polyfit1 (x y : List ℝ) : Except Unit (ℝ × ℝ) :=
  if x.isEmpty then .error () else
    let n : ℝ := x.length
    let sx := x.sum
    let sy := y.sum
    let sxx := (x.map fun t => t ^ 2).sum
    let sxy := ((x.zip y).map fun q => q.1 * q.2).sum
    .ok ((n * sxy - sx * sy) / (n * sxx - sx ^ 2),
         (sxx * sy - sx * sxy) / (n * sxx - sx ^ 2))

open Classical in
/-- Model of the library call `scipy.stats.linregress(x, y)` used in
`generate_mixed_hugoniot_many`.  scipy validates its input: an empty input
raises `ValueError`, and a zero variance of `x` (`ssxm == 0`, i.e. all x values
identical) raises `ValueError("Cannot calculate a linear regression if all x
values are identical")`.  Otherwise the ordinary-least-squares slope and
intercept are computed from the biased (co)variances about the sample means and
returned as `(slope, intercept)`. -/
def linregress (x y : List ℝ) : Except Unit (ℝ × ℝ) :=
  if x.isEmpty then .error () else
    let n : ℝ := x.length
    let xmean := x.sum / n
    let ymean := y.sum / n
    let ssxm := (x.map fun t => t ^ 2).sum / n - xmean ^ 2
    let ssxym := ((x.zip y).map fun q => q.1 * q.2).sum / n - xmean * ymean
    if ssxm = 0 then .error () else
      let slope := ssxym / ssxm
      .ok (slope, ymean - slope * xmean)

/-- Function `generate_mixed_hugoniot` (the legacy two-material path).  The
Python function propagates the `TypeError` that `np.polyfit` raises on an empty
fit vector (which happens when `Up` has fewer than two samples); the returned
object carries the `mfracs` attribute attached just before `return`. -/
def generate_mixed_hugoniot (name : String) (material1 material2 : HugoniotEOS)
    (Vx_mat1 : ℝ) (Up : List ℝ) : Except Unit MixedHugoniotEOS :=
  let P := Up.map material1.hugoniot_P
  let material1Up := Up
  let material2Up := P.map material2.solve_up
  let mass_mat1 := material1.rho0 * Vx_mat1
  let mass_mat2 := material2.rho0 * (1 - Vx_mat1)
  let x_mat1 := convert_volfrac_to_massfrac material1.rho0 material2.rho0 Vx_mat1
  let rho_mix := (mass_mat1 + mass_mat2) /
    (mass_mat1 / material1.rho0 + mass_mat2 / material2.rho0)
  let mixed_Up := (material1Up.zip material2Up).map fun q =>
    Real.sqrt (q.1 ^ 2 * x_mat1 + q.2 ^ 2 * (1 - x_mat1))
  let mixed_Us := (P.tail.zip mixed_Up.tail).map fun q => q.1 / (rho_mix * q.2)
  match polyfit1 mixed_Up.tail mixed_Us with
  | .error e => .error e
  | .ok regression =>
      .ok ⟨name, rho_mix, regression.2, regression.1,
        [material1.name, material2.name], [Vx_mat1, 1 - Vx_mat1],
        [x_mat1, 1 - x_mat1]⟩

/-- The sum of the volume fractions in the material list
(`sum(item[1] for item in material_data_list)`). -/
def vfracSum (lst : List (HugoniotEOS × ℝ)) : ℝ := (lst.map fun item => item.2).sum

/-- Model of `np.isclose(a, b)` at numpy's default tolerances `rtol = 1e-5`,
`atol = 1e-8`: `|a - b| <= atol + rtol * |b|`. -/
def isclose (a b : ℝ) : Prop := |a - b| ≤ 1e-8 + 1e-5 * |b|

/-- Per-component masses (`masses = [eos.rho0 * vfrac for eos, vfrac in ...]`). -/
def massesOf (lst : List (HugoniotEOS × ℝ)) : List ℝ :=
  lst.map fun item => item.1.rho0 * item.2

/-- `total_mass = sum(masses)`. -/
def totalMassOf (lst : List (HugoniotEOS × ℝ)) : ℝ := (massesOf lst).sum

/-- `rho_mix = sum(eos.rho0 * vfrac for eos, vfrac in material_data_list)`,
recomputed from the list exactly as in the source (it coincides with
`totalMassOf`). -/
def rhoMixOf (lst : List (HugoniotEOS × ℝ)) : ℝ :=
  (lst.map fun item => item.1.rho0 * item.2).sum

open Classical in
/-- `component_mass_frac_list = [m / total_mass if total_mass > 0 else 0 for m in
masses]`: the source substitutes `0`, it does not raise, when the total mass is
not positive. -/
def massFracsOf (lst : List (HugoniotEOS × ℝ)) : List ℝ :=
  (massesOf lst).map fun m =>
    if 0 < totalMassOf lst then m / totalMassOf lst else 0

/-- `component_up_list = [eos.solve_up(P_common) for eos in component_eos_list]`. -/
def componentUpLists (lst : List (HugoniotEOS × ℝ)) (P_common : List ℝ) :
    List (List ℝ) :=
  lst.map fun item => P_common.map item.1.solve_up

/-- The elementwise accumulation `sum_up_squared_times_mass_frac`, starting from
`np.zeros_like(Up_ref)` and adding `np.square(up_item) * mf_item` for each pair
in `zip(component_up_list, component_mass_frac_list)`. -/
def sumUpSquared (upLists : List (List ℝ)) (mfs : List ℝ) (n : ℕ) : List ℝ :=
  (upLists.zip mfs).foldl
    (fun acc q => acc.zipWith (fun a u => a + u ^ 2 * q.2) q.1)
    (List.replicate n 0)

/-- `mixed_Up = np.sqrt(sum_up_squared_times_mass_frac)`, driven by the first
material's pressure trace `P_common = mat1.hugoniot_P(Up_ref)`. -/
def mixedUpMany (mat1 : HugoniotEOS) (lst : List (HugoniotEOS × ℝ))
    (Up_ref : List ℝ) : List ℝ :=
  (sumUpSquared (componentUpLists lst (Up_ref.map mat1.hugoniot_P))
    (massFracsOf lst) Up_ref.length).map Real.sqrt

open Classical in
/-- The sample points that take part in the regression of
`generate_mixed_hugoniot_many`: the pairs `(mixed_Up[k], P_common[k])` for
`k ≥ 1` (slices `mixed_Up[1:]`, `P_common[1:]`) whose mixed particle velocity
passes the mask `valid_fit_indices = mixed_Up[1:] > 1e-9`. -/
def fitPairs (mat1 : HugoniotEOS) (lst : List (HugoniotEOS × ℝ))
    (Up_ref : List ℝ) : List (ℝ × ℝ) :=
  ((mixedUpMany mat1 lst Up_ref).tail.zip
    (Up_ref.map mat1.hugoniot_P).tail).filter fun q => decide (1e-9 < q.1)

/-- The `ValueError`s that can escape `generate_mixed_hugoniot_many`: an empty
material list; volume fractions whose sum fails `np.isclose(·, 1.0)` (carrying
the offending sum, which the Python message interpolates); or the identical-x
`ValueError` that `scipy.stats.linregress` raises and the function propagates
uncaught when at least two filtered points survive but all share the same
`mixed_Up` value. -/
inductive MixtureError where
  | emptyList : MixtureError
  | badSum : ℝ → MixtureError
  | identicalX : MixtureError

open Classical in
/-- The regression block of `generate_mixed_hugoniot_many`, returning the pair
`(C0_mix, S_mix)`: starting from the fallback `C0_mix, S_mix = mat1_eos.C0, 0.0`,
when both traces have more than one sample and at least two filtered points
survive, `mixed_Us_calc = p_for_fit / (rho_mix * up_for_fit)` is regressed on
`up_for_fit` with `scipy.stats.linregress` and `(intercept, slope)` is taken.
The nested Python check `len(up_for_fit) >= 2` repeats
`np.count_nonzero(valid_fit_indices) >= 2` verbatim (both arrays come from the
same mask), so the two tests collapse to one here; the fallback branches only
print a warning, which has no observable effect beyond the returned values.
The `ValueError` that `scipy.stats.linregress` raises on identical x values is
not caught anywhere in the Python function, so it propagates out of this block
(`.error .identicalX`). -/
def fitCoeffs (mat1 : HugoniotEOS) (lst : List (HugoniotEOS × ℝ))
    (Up_ref : List ℝ) : Except MixtureError (ℝ × ℝ) :=
  let P_common := Up_ref.map mat1.hugoniot_P
  let mixed_Up := mixedUpMany mat1 lst Up_ref
  if 1 < mixed_Up.length ∧ 1 < P_common.length then
    let pairs := fitPairs mat1 lst Up_ref
    if 2 ≤ pairs.length then
      let up_for_fit := pairs.map Prod.fst
      let p_for_fit := pairs.map Prod.snd
      let mixed_Us_calc := (p_for_fit.zip up_for_fit).map fun q =>
        q.1 / (rhoMixOf lst * q.2)
      match linregress up_for_fit mixed_Us_calc with
      | .error _ => .error .identicalX
      | .ok regression => .ok (regression.2, regression.1)
    else .ok (mat1.C0, 0)
  else .ok (mat1.C0, 0)

open Classical in
/-- Function `generate_mixed_hugoniot_many`.  Control flow follows the source:
validate, build the common pressure frame from the first material, accumulate
the mass-weighted squared particle velocities (inside `mixedUpMany` /
`fitCoeffs`), and return the mixture object with the attached `mfracs` — or
propagate the scipy `ValueError` escaping the regression block. -/
def generate_mixed_hugoniot_many (name : String)
    (material_data_list : List (HugoniotEOS × ℝ)) (Up_ref : List ℝ) :
    Except MixtureError MixedHugoniotEOS :=
  match material_data_list with
  | [] => .error .emptyList
  | (mat1, v1) :: rest =>
      let lst := (mat1, v1) :: rest
      if isclose (vfracSum lst) 1 then
        match fitCoeffs mat1 lst Up_ref with
        | .error e => .error e
        | .ok fit =>
            .ok ⟨name, rhoMixOf lst, fit.1, fit.2, lst.map fun q => q.1.name,
              lst.map fun q => q.2, massFracsOf lst⟩
      else .error (.badSum (vfracSum lst))

/-- Unfolding lemma: on a non-empty list whose volume fractions pass
`np.isclose(sum, 1.0)` and whose regression block succeeds,
`generate_mixed_hugoniot_many` returns `.ok` with the fields produced by the
helper definitions. -/
lemma generate_mixed_hugoniot_many_ok (name : String) (mat1 : HugoniotEOS)
    (v1 : ℝ) (rest : List (HugoniotEOS × ℝ)) (Up_ref : List ℝ)
    (h : isclose (vfracSum ((mat1, v1) :: rest)) 1) (fit : ℝ × ℝ)
    (hfit : fitCoeffs mat1 ((mat1, v1) :: rest) Up_ref = .ok fit) :
    generate_mixed_hugoniot_many name ((mat1, v1) :: rest) Up_ref =
      .ok ⟨name, rhoMixOf ((mat1, v1) :: rest), fit.1, fit.2,
        ((mat1, v1) :: rest).map fun q => q.1.name,
        ((mat1, v1) :: rest).map fun q => q.2,
        massFracsOf ((mat1, v1) :: rest)⟩ := by
  unfold generate_mixed_hugoniot_many
  dsimp only
  rw [if_pos h, hfit]

/-- Unfolding lemma: a failing regression block propagates its error out of
`generate_mixed_hugoniot_many`, exactly as the uncaught Python `ValueError`
does. -/
lemma generate_mixed_hugoniot_many_fitError (name : String) (mat1 : HugoniotEOS)
    (v1 : ℝ) (rest : List (HugoniotEOS × ℝ)) (Up_ref : List ℝ)
    (h : isclose (vfracSum ((mat1, v1) :: rest)) 1) (e : MixtureError)
    (hfit : fitCoeffs mat1 ((mat1, v1) :: rest) Up_ref = .error e) :
    generate_mixed_hugoniot_many name ((mat1, v1) :: rest) Up_ref = .error e := by
  unfold generate_mixed_hugoniot_many
  dsimp only
  rw [if_pos h, hfit]

/-- The only error the regression block can produce is scipy's identical-x
`ValueError`: both fallback branches return `.ok`. -/
lemma fitCoeffs_error (mat1 : HugoniotEOS) (lst : List (HugoniotEOS × ℝ))
    (Up_ref : List ℝ) (e : MixtureError)
    (h : fitCoeffs mat1 lst Up_ref = .error e) : e = .identicalX := by
  unfold fitCoeffs at h
  dsimp only at h
  by_cases h1 : 1 < (mixedUpMany mat1 lst Up_ref).length ∧
      1 < (Up_ref.map mat1.hugoniot_P).length
  · rw [if_pos h1] at h
    by_cases h2 : 2 ≤ (fitPairs mat1 lst Up_ref).length
    · rw [if_pos h2] at h
      cases hlr : linregress ((fitPairs mat1 lst Up_ref).map Prod.fst)
          ((((fitPairs mat1 lst Up_ref).map Prod.snd).zip
            ((fitPairs mat1 lst Up_ref).map Prod.fst)).map fun q =>
              q.1 / (rhoMixOf lst * q.2)) with
      | error u =>
          rw [hlr] at h
          injection h with h3
          exact h3.symm
      | ok reg =>
          rw [hlr] at h
          exact absurd h (by simp)
    · rw [if_neg h2] at h
      exact absurd h (by simp)
  · rw [if_neg h1] at h
    exact absurd h (by simp)

/-- Unfolding lemma for the bad-sum branch. -/
lemma generate_mixed_hugoniot_many_badSum (name : String) (mat1 : HugoniotEOS)
    (v1 : ℝ) (rest : List (HugoniotEOS × ℝ)) (Up_ref : List ℝ)
    (h : ¬ isclose (vfracSum ((mat1, v1) :: rest)) 1) :
    generate_mixed_hugoniot_many name ((mat1, v1) :: rest) Up_ref =
      .error (.badSum (vfracSum ((mat1, v1) :: rest))) := by
  unfold generate_mixed_hugoniot_many
  dsimp only
  rw [if_neg h]

/-! ### Claims C1 - C3: the inverse solve `solve_up` -/

/-- C1 (counterexample).  The round-trip claim includes `S = 0`, but `solve_up`
has no degenerate-slope branch: for the material `rho0 = 1, C0 = 1, S = 0` and
`up = 1` the quotient is `0/0` (a NaN in numpy, value `0` under Lean's division
convention), so `solve_up(hugoniot_P(1))` is not within `1e-8` of `1`. -/
theorem C1_roundtrip_counterexample :
    (HugoniotEOS.mk "A" 1 1 0).solve_upNaN
      ((HugoniotEOS.mk "A" 1 1 0).hugoniot_P 1) ∧
    ¬ |(HugoniotEOS.mk "A" 1 1 0).solve_up
        ((HugoniotEOS.mk "A" 1 1 0).hugoniot_P 1) - 1| ≤ 1e-8 * |(1 : ℝ)| := by
  have hP : (HugoniotEOS.mk "A" 1 1 0).hugoniot_P 1 = 1 := by
    norm_num [HugoniotEOS.hugoniot_P, HugoniotEOS.hugoniot_eos]
  have hdisc : (1 : ℝ) ^ 2 - 4 * 0 * (-1 / 1) = 1 := by norm_num
  constructor
  · rw [hP]
    right
    refine ⟨by norm_num, ?_⟩
    show -1 + Real.sqrt ((1 : ℝ) ^ 2 - 4 * 0 * (-1 / 1)) = 0
    rw [hdisc, Real.sqrt_one]
    norm_num
  · rw [hP]
    show ¬ |(-1 + Real.sqrt ((1 : ℝ) ^ 2 - 4 * 0 * (-1 / 1))) / (2 * 0) - 1|
        ≤ 1e-8 * |(1 : ℝ)|
    rw [hdisc, Real.sqrt_one]
    norm_num

/-- C1 (amended).  For every material with `rho0 > 0`, `C0 > 0` and strictly
positive slope `S > 0`, and every `up ≥ 0`, `solve_up(hugoniot_P(up))` returns
`up` exactly in real arithmetic — in particular within the claimed `1e-8`
relative tolerance.  (The claim's `S ≥ 0` must be tightened to `S > 0`.) -/
theorem C1_roundtrip (m : HugoniotEOS) (hrho : 0 < m.rho0) (hC : 0 < m.C0)
    (hS : 0 < m.S) (up : ℝ) (hup : 0 ≤ up) :
    m.solve_up (m.hugoniot_P up) = up ∧
    |m.solve_up (m.hugoniot_P up) - up| ≤ 1e-8 * |up| := by
  have h := m.solve_up_hugoniot_P hrho hC hS up hup
  refine ⟨h, ?_⟩
  rw [h, sub_self, abs_zero]
  positivity

/-- C1 (witness): the copper material of the spec's concrete scenario 1. -/
theorem C1_roundtrip_witness :
    (HugoniotEOS.mk "Copper" 8.93 4.27 1.413).solve_up
      ((HugoniotEOS.mk "Copper" 8.93 4.27 1.413).hugoniot_P 1) = 1 :=
  (C1_roundtrip (HugoniotEOS.mk "Copper" 8.93 4.27 1.413)
    (by norm_num) (by norm_num) (by norm_num) 1 (by norm_num)).1

/-- C2 (counterexample).  `solve_up` does not treat `S = 0` as a distinct case:
for `rho0 = 1, C0 = 1, S = 0` and `P = 1` the division by `2*S` IS triggered as
`0/0` (NaN), and the result is not `P / (rho0 * C0) = 1`. -/
theorem C2_degenerate_counterexample :
    (HugoniotEOS.mk "A" 1 1 0).solve_upNaN 1 ∧
    (HugoniotEOS.mk "A" 1 1 0).solve_up 1 ≠ 1 / (1 * 1) := by
  have hdisc : (1 : ℝ) ^ 2 - 4 * 0 * (-1 / 1) = 1 := by norm_num
  constructor
  · right
    refine ⟨by norm_num, ?_⟩
    show -1 + Real.sqrt ((1 : ℝ) ^ 2 - 4 * 0 * (-1 / 1)) = 0
    rw [hdisc, Real.sqrt_one]
    norm_num
  · show (-1 + Real.sqrt ((1 : ℝ) ^ 2 - 4 * 0 * (-1 / 1))) / (2 * 0) ≠ 1 / (1 * 1)
    rw [hdisc, Real.sqrt_one]
    norm_num

/-- C2 (amended).  `solve_up` has no `S = 0` branch: for every material with
`rho0 > 0`, `C0 > 0`, `S = 0` and every pressure `P`, the division by `2*S = 0`
is triggered with an exactly-zero numerator, so the computation yields NaN
(`solve_upNaN`); the embedded value is `0` under Lean's division convention, and
in particular the result is never the spec's `P / (rho0 * C0)` for `P ≠ 0`. -/
theorem C2_degenerate_slope (m : HugoniotEOS) (hrho : 0 < m.rho0)
    (hC : 0 < m.C0) (hS : m.S = 0) (P : ℝ) :
    m.solve_upNaN P ∧ m.solve_up P = 0 ∧
      (P ≠ 0 → m.solve_up P ≠ P / (m.rho0 * m.C0)) := by
  have hdisc : m.C0 ^ 2 - 4 * m.S * (-P / m.rho0) = m.C0 ^ 2 := by
    rw [hS]; ring
  have hnum : -m.C0 + Real.sqrt (m.C0 ^ 2 - 4 * m.S * (-P / m.rho0)) = 0 := by
    rw [hdisc, Real.sqrt_sq hC.le]; ring
  have hval : m.solve_up P = 0 := by
    unfold HugoniotEOS.solve_up
    rw [hnum, hS]
    norm_num
  refine ⟨Or.inr ⟨by rw [hS]; ring, hnum⟩, hval, fun hP => ?_⟩
  rw [hval]
  intro hcontra
  have hne : P / (m.rho0 * m.C0) ≠ 0 :=
    div_ne_zero hP (by positivity)
  exact hne hcontra.symm

/-- C2 (witness). -/
theorem C2_degenerate_slope_witness :
    (HugoniotEOS.mk "A" 2 3 0).solve_upNaN 5 ∧
      (HugoniotEOS.mk "A" 2 3 0).solve_up 5 = 0 ∧
      ((5 : ℝ) ≠ 0 → (HugoniotEOS.mk "A" 2 3 0).solve_up 5 ≠ 5 / (2 * 3)) :=
  C2_degenerate_slope (HugoniotEOS.mk "A" 2 3 0)
    (by norm_num) (by norm_num) rfl 5

/-- C3 (counterexample).  At the spec's concrete scenario 4 (`rho0 = 1`,
`C0 = 1`, `S = 1`, `P = -5`) the discriminant is `-19 < 0`, yet `solve_up`
raises nothing: the numpy expression evaluates to NaN (`solve_upNaN`), and under
Lean's convention `sqrt` of a negative is `0` so the embedded value returned is
`-(1/2)`.  No `InvalidPressure` error exists anywhere in the code. -/
theorem C3_invalid_pressure_counterexample :
    (HugoniotEOS.mk "A" 1 1 1).solve_upNaN (-5) ∧
    (HugoniotEOS.mk "A" 1 1 1).solve_up (-5) = -(1 / 2) := by
  have hdisc : (1 : ℝ) ^ 2 - 4 * 1 * (-(-5) / 1) = -19 := by norm_num
  constructor
  · left
    show (1 : ℝ) ^ 2 - 4 * 1 * (-(-5) / 1) < 0
    rw [hdisc]; norm_num
  · show (-1 + Real.sqrt ((1 : ℝ) ^ 2 - 4 * 1 * (-(-5) / 1))) / (2 * 1) = -(1 / 2)
    rw [hdisc, Real.sqrt_eq_zero_of_nonpos (by norm_num)]
    norm_num

/-- C3 (amended).  For every material with `rho0 > 0`, `S > 0` and every
pressure below `-(C0^2 * rho0) / (4*S)`, the discriminant of `solve_up` is
negative and the numpy computation yields NaN (`solve_upNaN`) — silently; the
code contains no domain check and raises no error on any input. -/
theorem C3_negative_discriminant (m : HugoniotEOS) (hrho : 0 < m.rho0)
    (hS : 0 < m.S) (P : ℝ) (hP : P < -(m.C0 ^ 2 * m.rho0) / (4 * m.S)) :
    m.solve_upNaN P := by
  left
  have h4S : (0 : ℝ) < 4 * m.S := by positivity
  rw [lt_div_iff₀ h4S] at hP
  have hrw : m.C0 ^ 2 - 4 * m.S * (-P / m.rho0)
      = (m.C0 ^ 2 * m.rho0 + 4 * m.S * P) / m.rho0 := by
    field_simp
  rw [hrw]
  apply div_neg_of_neg_of_pos _ hrho
  nlinarith

/-- C3 (witness). -/
theorem C3_negative_discriminant_witness :
    (HugoniotEOS.mk "B" 2 1 1).solve_upNaN (-10) :=
  C3_negative_discriminant (HugoniotEOS.mk "B" 2 1 1)
    (by norm_num) (by norm_num) (-10) (by norm_num)

/-! ### Claims C4, C6, C9: validation, density identity, fallback -/

/-- C4.  Precondition check of `generate_mixed_hugoniot_many`: an empty
component list fails with the empty-list error; a non-empty list whose volume
fractions fail `np.isclose(sum, 1.0)` fails with the error carrying the actual
sum; and when the list is non-empty and the sum is close to 1 neither of those
two errors is raised — the function either returns an `.ok` mixture or
propagates scipy's identical-x `ValueError` out of the regression, never a
validation error. -/
theorem C4_validation (name : String) (lst : List (HugoniotEOS × ℝ))
    (Up_ref : List ℝ) :
    (lst = [] →
      generate_mixed_hugoniot_many name lst Up_ref = .error .emptyList) ∧
    (lst ≠ [] → ¬ isclose (vfracSum lst) 1 →
      generate_mixed_hugoniot_many name lst Up_ref =
        .error (.badSum (vfracSum lst))) ∧
    (lst ≠ [] → isclose (vfracSum lst) 1 →
      generate_mixed_hugoniot_many name lst Up_ref ≠ .error .emptyList ∧
      ∀ s, generate_mixed_hugoniot_many name lst Up_ref ≠
        .error (.badSum s)) := by
  match lst with
  | [] =>
      exact ⟨fun _ => rfl, fun h => absurd rfl h, fun h => absurd rfl h⟩
  | (mat1, v1) :: rest =>
      refine ⟨fun h => by simp at h, fun _ h =>
        generate_mixed_hugoniot_many_badSum name mat1 v1 rest Up_ref h,
        fun _ h => ?_⟩
      cases hfc : fitCoeffs mat1 ((mat1, v1) :: rest) Up_ref with
      | error e =>
          rw [generate_mixed_hugoniot_many_fitError name mat1 v1 rest Up_ref h e hfc,
            fitCoeffs_error mat1 ((mat1, v1) :: rest) Up_ref e hfc]
          exact ⟨by simp, fun s => by simp⟩
      | ok fit =>
          rw [generate_mixed_hugoniot_many_ok name mat1 v1 rest Up_ref h fit hfc]
          exact ⟨by simp, fun s => by simp⟩

/-- C4 (witness): the spec's concrete scenario 3 — volume fractions
`[0.4, 0.59]` fail validation with an error reporting the actual sum `0.99`. -/
theorem C4_validation_witness :
    generate_mixed_hugoniot_many "mix"
      [(HugoniotEOS.mk "A" 1 1 1, 0.4), (HugoniotEOS.mk "B" 1 1 1, 0.59)] [0, 1]
      = .error (.badSum 0.99) := by
  have hsum : vfracSum
      [(HugoniotEOS.mk "A" 1 1 1, 0.4), (HugoniotEOS.mk "B" 1 1 1, 0.59)]
      = 0.99 := by
    norm_num [vfracSum]
  have hnot : ¬ isclose (0.99 : ℝ) 1 := by
    simp only [isclose, abs_one]
    rw [show (0.99 : ℝ) - 1 = -0.01 by norm_num, abs_neg,
      abs_of_nonneg (by norm_num : (0 : ℝ) ≤ 0.01)]
    norm_num
  have h := (C4_validation "mix"
      [(HugoniotEOS.mk "A" 1 1 1, 0.4), (HugoniotEOS.mk "B" 1 1 1, 0.59)]
      [0, 1]).2.1 (by simp) (by rw [hsum]; exact hnot)
  rw [h, hsum]

/-- When fewer than two filtered sample points exist, the regression block keeps
its fallback values `(mat1.C0, 0)` — in both the short-trace branch and the
filtered branch. -/
lemma fitCoeffs_of_few (mat1 : HugoniotEOS) (lst : List (HugoniotEOS × ℝ))
    (Up_ref : List ℝ) (h : (fitPairs mat1 lst Up_ref).length < 2) :
    fitCoeffs mat1 lst Up_ref = .ok (mat1.C0, 0) := by
  unfold fitCoeffs
  by_cases hlen : 1 < (mixedUpMany mat1 lst Up_ref).length ∧
      1 < (Up_ref.map mat1.hugoniot_P).length
  · rw [if_pos hlen, if_neg (by omega)]
  · rw [if_neg hlen]

/-- C6.  Density identity: whenever the volume fractions sum exactly to 1 (and
the list is non-empty, written as a head plus tail), every model that
`generate_mixed_hugoniot_many` returns has `rho0` equal to the volume-weighted
average density `sum (rho0_i * vfrac_i)`.  (The function may instead propagate
scipy's identical-x `ValueError` and return no model; the identity is about the
model it returns when it does return one.) -/
theorem C6_density_identity (name : String) (mat1 : HugoniotEOS) (v1 : ℝ)
    (rest : List (HugoniotEOS × ℝ)) (Up_ref : List ℝ)
    (hsum : vfracSum ((mat1, v1) :: rest) = 1) :
    ∀ r, generate_mixed_hugoniot_many name ((mat1, v1) :: rest) Up_ref = .ok r →
      r.rho0 = (((mat1, v1) :: rest).map fun q => q.1.rho0 * q.2).sum := by
  intro r hr
  have hc : isclose (vfracSum ((mat1, v1) :: rest)) 1 := by
    rw [hsum]
    simp only [isclose, sub_self, abs_zero, abs_one]
    norm_num
  cases hfc : fitCoeffs mat1 ((mat1, v1) :: rest) Up_ref with
  | error e =>
      rw [generate_mixed_hugoniot_many_fitError name mat1 v1 rest Up_ref hc e hfc]
        at hr
      exact absurd hr (by simp)
  | ok fit =>
      rw [generate_mixed_hugoniot_many_ok name mat1 v1 rest Up_ref hc fit hfc]
        at hr
      injection hr with h
      rw [← h]
      rfl

/-- C6 (witness): a 50/50 two-material mixture with densities 2.5 and 3.5 over
an empty reference array, where the function does return a model (the fallback
fires, no regression is attempted). -/
theorem C6_density_identity_witness :
    (MixedHugoniotEOS.mk "mix"
      (rhoMixOf [(HugoniotEOS.mk "A" 2.5 3 1.5, 0.5),
        (HugoniotEOS.mk "B" 3.5 3 1.5, 0.5)])
      (HugoniotEOS.mk "A" 2.5 3 1.5).C0 0
      ([(HugoniotEOS.mk "A" 2.5 3 1.5, 0.5),
        (HugoniotEOS.mk "B" 3.5 3 1.5, 0.5)].map fun q => q.1.name)
      ([(HugoniotEOS.mk "A" 2.5 3 1.5, 0.5),
        (HugoniotEOS.mk "B" 3.5 3 1.5, 0.5)].map fun q => q.2)
      (massFracsOf [(HugoniotEOS.mk "A" 2.5 3 1.5, 0.5),
        (HugoniotEOS.mk "B" 3.5 3 1.5, 0.5)])).rho0
      = ([(HugoniotEOS.mk "A" 2.5 3 1.5, 0.5),
        (HugoniotEOS.mk "B" 3.5 3 1.5, 0.5)].map fun q => q.1.rho0 * q.2).sum :=
  C6_density_identity "mix" (HugoniotEOS.mk "A" 2.5 3 1.5) 0.5
    [(HugoniotEOS.mk "B" 3.5 3 1.5, 0.5)] [] (by norm_num [vfracSum]) _
    (generate_mixed_hugoniot_many_ok "mix" (HugoniotEOS.mk "A" 2.5 3 1.5) 0.5
      [(HugoniotEOS.mk "B" 3.5 3 1.5, 0.5)] []
      (by norm_num [isclose, vfracSum])
      ((HugoniotEOS.mk "A" 2.5 3 1.5).C0, 0)
      (fitCoeffs_of_few _ _ _
        (by simp [fitPairs, mixedUpMany, sumUpSquared, componentUpLists])))

/-- C9.  Degraded-fit fallback: for every valid mixture input (non-empty list,
fractions passing `np.isclose`) on which fewer than 2 sample points survive the
near-zero filtering, `generate_mixed_hugoniot_many` does not fail: it returns an
`.ok` model with `C0` equal to the first component's `C0` and `S = 0` (the
warning on this path is only printed, never raised). -/
theorem C9_degraded_fallback (name : String) (mat1 : HugoniotEOS) (v1 : ℝ)
    (rest : List (HugoniotEOS × ℝ)) (Up_ref : List ℝ)
    (hsum : isclose (vfracSum ((mat1, v1) :: rest)) 1)
    (hfew : (fitPairs mat1 ((mat1, v1) :: rest) Up_ref).length < 2) :
    ∃ r, generate_mixed_hugoniot_many name ((mat1, v1) :: rest) Up_ref = .ok r ∧
      r.C0 = mat1.C0 ∧ r.S = 0 :=
  ⟨_, generate_mixed_hugoniot_many_ok name mat1 v1 rest Up_ref hsum (mat1.C0, 0)
    (fitCoeffs_of_few mat1 ((mat1, v1) :: rest) Up_ref hfew), rfl, rfl⟩

/-- C9 (witness): a single-material "mixture" over an empty reference array. -/
theorem C9_degraded_fallback_witness :
    ∃ r, generate_mixed_hugoniot_many "mix" [(HugoniotEOS.mk "A" 1 1 1, 1)] []
        = .ok r ∧
      r.C0 = (HugoniotEOS.mk "A" 1 1 1).C0 ∧ r.S = 0 :=
  C9_degraded_fallback "mix" (HugoniotEOS.mk "A" 1 1 1) 1 [] []
    (by simp only [isclose, vfracSum, List.map_cons, List.map_nil, List.sum_cons,
          List.sum_nil, add_zero, sub_self, abs_zero, abs_one]
        norm_num)
    (by simp [fitPairs, mixedUpMany, sumUpSquared, componentUpLists])

/-! ### Claim C7: zero total mass -/

/-- Accumulating squared velocities weighted by an all-zero mass-fraction list
leaves the accumulator unchanged. -/
lemma zipWith_add_sq_zero (acc u : List ℝ) (h : u.length = acc.length) :
    acc.zipWith (fun a x => a + x ^ 2 * 0) u = acc := by
  apply List.ext_getElem
  · simp [h]
  · intro i h1 h2
    simp [List.getElem_zipWith]

/-- The fold of `sumUpSquared` is the identity when every mass fraction is zero
and the component traces match the accumulator's length. -/
lemma foldl_sumUpSq_zero : ∀ (ups : List (List ℝ)) (mfs : List ℝ) (acc : List ℝ),
    (∀ x ∈ mfs, x = 0) → (∀ u ∈ ups, u.length = acc.length) →
    (ups.zip mfs).foldl
      (fun acc q => acc.zipWith (fun a u => a + u ^ 2 * q.2) q.1) acc = acc := by
  intro ups
  induction ups with
  | nil => intro mfs acc _ _; simp
  | cons u ups ih =>
      intro mfs acc hmf hlen
      cases mfs with
      | nil => simp
      | cons mf mfs =>
          have hmf0 : mf = 0 := hmf mf (by simp)
          have hu : u.length = acc.length := hlen u (by simp)
          have hstep : acc.zipWith (fun a x => a + x ^ 2 * mf) u = acc := by
            rw [hmf0]
            exact zipWith_add_sq_zero acc u hu
          simp only [List.zip_cons_cons, List.foldl_cons]
          rw [hstep]
          exact ih mfs acc (fun x hx => hmf x (by simp [hx]))
            (fun v hv => hlen v (by simp [hv]))

/-- When the total mass is not positive every computed mass fraction is `0`, so
the whole mixed particle-velocity trace is the zero array. -/
lemma mixedUpMany_of_total_nonpos (mat1 : HugoniotEOS)
    (lst : List (HugoniotEOS × ℝ)) (Up_ref : List ℝ)
    (h : ¬ 0 < totalMassOf lst) :
    mixedUpMany mat1 lst Up_ref = List.replicate Up_ref.length 0 := by
  unfold mixedUpMany sumUpSquared
  rw [foldl_sumUpSq_zero _ _ _ ?hmf ?hlen]
  · simp [Real.sqrt_zero, List.map_replicate]
  case hmf =>
    intro x hx
    rcases List.mem_map.mp hx with ⟨m, _, rfl⟩
    exact if_neg h
  case hlen =>
    intro u hu
    rcases List.mem_map.mp hu with ⟨item, _, rfl⟩
    simp

/-- With a non-positive total mass no sample survives the `> 1e-9` filter. -/
lemma fitPairs_of_total_nonpos (mat1 : HugoniotEOS)
    (lst : List (HugoniotEOS × ℝ)) (Up_ref : List ℝ)
    (h : ¬ 0 < totalMassOf lst) :
    fitPairs mat1 lst Up_ref = [] := by
  unfold fitPairs
  rw [mixedUpMany_of_total_nonpos _ _ _ h]
  rw [List.filter_eq_nil_iff]
  rintro ⟨a, b⟩ hq
  have ha : a ∈ (List.replicate Up_ref.length (0 : ℝ)).tail :=
    (List.of_mem_zip hq).1
  have ha0 : a = 0 :=
    List.eq_of_mem_replicate (List.mem_of_mem_tail ha)
  subst ha0
  simp only [decide_eq_true_eq]
  norm_num

/-- C7 (counterexample).  A component with `rho0 = 0` and full volume fraction
passes validation and has total mass `0`, yet `generate_mixed_hugoniot_many`
raises nothing: it returns an `.ok` mixture result. -/
theorem C7_zero_mass_counterexample :
    totalMassOf [(HugoniotEOS.mk "A" 0 1 1, 1)] = 0 ∧
    ∃ r, generate_mixed_hugoniot_many "mix" [(HugoniotEOS.mk "A" 0 1 1, 1)] []
      = .ok r := by
  constructor
  · norm_num [totalMassOf, massesOf]
  · exact ⟨_, generate_mixed_hugoniot_many_ok "mix" (HugoniotEOS.mk "A" 0 1 1) 1 [] []
      (by simp only [isclose, vfracSum, List.map_cons, List.map_nil,
            List.sum_cons, List.sum_nil, add_zero, sub_self, abs_zero, abs_one]
          norm_num)
      ((HugoniotEOS.mk "A" 0 1 1).C0, 0)
      (fitCoeffs_of_few _ _ _ (by simp [fitPairs]))⟩

/-- C7 (amended).  When the total mass evaluates to `0` on an input that passes
the two validation checks, `generate_mixed_hugoniot_many` does NOT fail: the
`if total_mass > 0 else 0` arm sets every mass fraction to `0`, every mixed
particle velocity becomes `0`, the regression falls back, and an `.ok` model
with `rho0 = 0`, `C0 = mat1.C0`, `S = 0` and all-zero `mfracs` is returned. -/
theorem C7_zero_total_mass (name : String) (mat1 : HugoniotEOS) (v1 : ℝ)
    (rest : List (HugoniotEOS × ℝ)) (Up_ref : List ℝ)
    (hsum : isclose (vfracSum ((mat1, v1) :: rest)) 1)
    (hmass : totalMassOf ((mat1, v1) :: rest) = 0) :
    ∃ r, generate_mixed_hugoniot_many name ((mat1, v1) :: rest) Up_ref = .ok r ∧
      r.mfracs = List.replicate ((mat1, v1) :: rest).length 0 ∧
      r.C0 = mat1.C0 ∧ r.S = 0 ∧ r.rho0 = 0 := by
  have hnot : ¬ 0 < totalMassOf ((mat1, v1) :: rest) := by
    rw [hmass]
    exact lt_irrefl 0
  have hfall : fitCoeffs mat1 ((mat1, v1) :: rest) Up_ref = .ok (mat1.C0, 0) :=
    fitCoeffs_of_few _ _ _
      (by rw [fitPairs_of_total_nonpos _ _ _ hnot]; simp)
  refine ⟨_, generate_mixed_hugoniot_many_ok name mat1 v1 rest Up_ref hsum
    (mat1.C0, 0) hfall, ?_, rfl, rfl, hmass⟩
  show massFracsOf ((mat1, v1) :: rest) = _
  unfold massFracsOf
  rw [List.map_congr_left fun m _ => if_neg hnot]
  rw [List.map_const']
  unfold massesOf
  rw [List.length_map]

/-- C7 (witness). -/
theorem C7_zero_total_mass_witness :
    ∃ r, generate_mixed_hugoniot_many "mix" [(HugoniotEOS.mk "A" 0 2 1, 1)] [0]
        = .ok r ∧
      r.mfracs = List.replicate ([(HugoniotEOS.mk "A" 0 2 1, 1)]).length 0 ∧
      r.C0 = (HugoniotEOS.mk "A" 0 2 1).C0 ∧ r.S = 0 ∧ r.rho0 = 0 :=
  C7_zero_total_mass "mix" (HugoniotEOS.mk "A" 0 2 1) 1 [] [0]
    (by simp only [isclose, vfracSum, List.map_cons, List.map_nil,
          List.sum_cons, List.sum_nil, add_zero, sub_self, abs_zero, abs_one]
        norm_num)
    (by norm_num [totalMassOf, massesOf])

/-! ### Claim C8: which sample points enter the regression -/

/-- The accumulator's length is preserved by the `sumUpSquared` fold whenever
every component trace has the accumulator's length. -/
lemma foldl_sumUpSq_length : ∀ (ups : List (List ℝ)) (mfs : List ℝ) (acc : List ℝ),
    (∀ u ∈ ups, u.length = acc.length) →
    ((ups.zip mfs).foldl
      (fun acc q => acc.zipWith (fun a u => a + u ^ 2 * q.2) q.1) acc).length
      = acc.length := by
  intro ups
  induction ups with
  | nil => intro mfs acc _; simp
  | cons u ups ih =>
      intro mfs acc hlen
      cases mfs with
      | nil => simp
      | cons mf mfs =>
          have hu : u.length = acc.length := hlen u (by simp)
          simp only [List.zip_cons_cons, List.foldl_cons]
          have hstep : (acc.zipWith (fun a x => a + x ^ 2 * mf) u).length
              = acc.length := by
            rw [List.length_zipWith, hu, min_self]
          rw [ih mfs _ (fun v hv => by rw [hlen v (by simp [hv]), ← hstep]), hstep]

/-- The mixed particle-velocity trace has one entry per reference sample. -/
lemma mixedUpMany_length (mat1 : HugoniotEOS) (lst : List (HugoniotEOS × ℝ))
    (Up_ref : List ℝ) :
    (mixedUpMany mat1 lst Up_ref).length = Up_ref.length := by
  unfold mixedUpMany sumUpSquared
  rw [List.length_map, foldl_sumUpSq_length _ _ _ ?hl, List.length_replicate]
  case hl =>
    intro u hu
    rcases List.mem_map.mp hu with ⟨item, _, rfl⟩
    simp

/-- When the sample list is non-empty and its variance about the mean does not
vanish, scipy's guard does not fire and `linregress` returns the closed-form
ordinary-least-squares slope and intercept. -/
lemma linregress_ok (x y : List ℝ) (hx : x ≠ [])
    (hssxm : (x.map fun t => t ^ 2).sum / (x.length : ℝ)
        - (x.sum / (x.length : ℝ)) ^ 2 ≠ 0) :
    linregress x y = .ok
      ((((x.zip y).map fun q => q.1 * q.2).sum / (x.length : ℝ)
          - x.sum / (x.length : ℝ) * (y.sum / (x.length : ℝ)))
        / ((x.map fun t => t ^ 2).sum / (x.length : ℝ)
          - (x.sum / (x.length : ℝ)) ^ 2),
       y.sum / (x.length : ℝ)
         - (((x.zip y).map fun q => q.1 * q.2).sum / (x.length : ℝ)
             - x.sum / (x.length : ℝ) * (y.sum / (x.length : ℝ)))
           / ((x.map fun t => t ^ 2).sum / (x.length : ℝ)
             - (x.sum / (x.length : ℝ)) ^ 2)
           * (x.sum / (x.length : ℝ))) := by
  unfold linregress
  rw [if_neg (by simp [List.isEmpty_iff, hx])]
  dsimp only
  rw [if_neg hssxm]

/-- With more than one reference sample, at least two surviving points, and a
successful `linregress` call over the filtered pairs, the regression branch
fires and the block returns that fit as `(intercept, slope)`. -/
lemma fitCoeffs_of_enough (mat1 : HugoniotEOS) (lst : List (HugoniotEOS × ℝ))
    (Up_ref : List ℝ) (hlen : 1 < Up_ref.length)
    (hcount : 2 ≤ (fitPairs mat1 lst Up_ref).length) (p : ℝ × ℝ)
    (hlr : linregress ((fitPairs mat1 lst Up_ref).map Prod.fst)
        ((((fitPairs mat1 lst Up_ref).map Prod.snd).zip
          ((fitPairs mat1 lst Up_ref).map Prod.fst)).map fun q =>
            q.1 / (rhoMixOf lst * q.2)) = .ok p) :
    fitCoeffs mat1 lst Up_ref = .ok (p.2, p.1) := by
  unfold fitCoeffs
  dsimp only
  rw [if_pos ⟨by rw [mixedUpMany_length]; exact hlen,
      by rw [List.length_map]; exact hlen⟩, if_pos hcount, hlr]

/-- C8 (amended).  On a valid mixture input with more than one reference sample
and at least two surviving points, the ordinary-least-squares fit is computed
over exactly the points of `fitPairs`: the samples from index 1 onwards whose
mixed particle velocity strictly exceeds `1e-9` (the first sample is always
excluded by the slice `[1:]`, whatever its value); a post-first sample
participates if and only if it passes the `> 1e-9` filter, and — provided the
surviving values are not all identical, so scipy's zero-variance guard does not
raise — the returned model's `C0`/`S` are the intercept/slope that `linregress`
returns over those points with `mixed_Us = P / (rho_mix * mixed_Up)`. -/
theorem C8_fit_selection (name : String) (mat1 : HugoniotEOS) (v1 : ℝ)
    (rest : List (HugoniotEOS × ℝ)) (Up_ref : List ℝ)
    (hsum : isclose (vfracSum ((mat1, v1) :: rest)) 1)
    (hlen : 1 < Up_ref.length)
    (hcount : 2 ≤ (fitPairs mat1 ((mat1, v1) :: rest) Up_ref).length)
    (hnd : (((fitPairs mat1 ((mat1, v1) :: rest) Up_ref).map Prod.fst).map
          fun t => t ^ 2).sum
        / (((fitPairs mat1 ((mat1, v1) :: rest) Up_ref).map Prod.fst).length : ℝ)
      - (((fitPairs mat1 ((mat1, v1) :: rest) Up_ref).map Prod.fst).sum
        / (((fitPairs mat1 ((mat1, v1) :: rest) Up_ref).map
          Prod.fst).length : ℝ)) ^ 2 ≠ 0) :
    (∀ q ∈ (mixedUpMany mat1 ((mat1, v1) :: rest) Up_ref).tail.zip
        ((Up_ref.map mat1.hugoniot_P).tail),
      1e-9 < q.1 → q ∈ fitPairs mat1 ((mat1, v1) :: rest) Up_ref) ∧
    (∀ q ∈ fitPairs mat1 ((mat1, v1) :: rest) Up_ref,
      q ∈ (mixedUpMany mat1 ((mat1, v1) :: rest) Up_ref).tail.zip
        ((Up_ref.map mat1.hugoniot_P).tail) ∧ 1e-9 < q.1) ∧
    ∃ r p, generate_mixed_hugoniot_many name ((mat1, v1) :: rest) Up_ref
        = .ok r ∧
      linregress ((fitPairs mat1 ((mat1, v1) :: rest) Up_ref).map Prod.fst)
        ((((fitPairs mat1 ((mat1, v1) :: rest) Up_ref).map Prod.snd).zip
          ((fitPairs mat1 ((mat1, v1) :: rest) Up_ref).map Prod.fst)).map fun q =>
            q.1 / (rhoMixOf ((mat1, v1) :: rest) * q.2)) = .ok p ∧
      r.C0 = p.2 ∧ r.S = p.1 := by
  refine ⟨?_, ?_, ?_⟩
  · intro q hq hgt
    exact List.mem_filter.mpr ⟨hq, decide_eq_true hgt⟩
  · intro q hq
    have h := List.mem_filter.mp hq
    exact ⟨h.1, of_decide_eq_true h.2⟩
  · have hne : (fitPairs mat1 ((mat1, v1) :: rest) Up_ref).map Prod.fst ≠ [] := by
      apply List.ne_nil_of_length_pos
      rw [List.length_map]
      omega
    obtain ⟨p, hp⟩ : ∃ p,
        linregress ((fitPairs mat1 ((mat1, v1) :: rest) Up_ref).map Prod.fst)
          ((((fitPairs mat1 ((mat1, v1) :: rest) Up_ref).map Prod.snd).zip
            ((fitPairs mat1 ((mat1, v1) :: rest) Up_ref).map Prod.fst)).map fun q =>
              q.1 / (rhoMixOf ((mat1, v1) :: rest) * q.2)) = .ok p :=
      ⟨_, linregress_ok _ _ hne hnd⟩
    exact ⟨_, p, generate_mixed_hugoniot_many_ok name mat1 v1 rest Up_ref hsum
      (p.2, p.1) (fitCoeffs_of_enough _ _ _ hlen hcount p hp), hp, rfl, rfl⟩

/-- Round-trip equalities for the concrete material `rho0 = C0 = S = 1`. -/
lemma unit_material_solve_up :
    (HugoniotEOS.mk "A" 1 1 1).solve_up 2 = 1 ∧
    (HugoniotEOS.mk "A" 1 1 1).solve_up 6 = 2 ∧
    (HugoniotEOS.mk "A" 1 1 1).solve_up 12 = 3 := by
  have hs : ∀ u : ℝ, 0 ≤ u →
      (HugoniotEOS.mk "A" 1 1 1).solve_up
        ((HugoniotEOS.mk "A" 1 1 1).hugoniot_P u) = u := fun u hu =>
    HugoniotEOS.solve_up_hugoniot_P _ (by norm_num) (by norm_num) (by norm_num) u hu
  refine ⟨?_, ?_, ?_⟩
  · rw [show (2 : ℝ) = (HugoniotEOS.mk "A" 1 1 1).hugoniot_P 1 by
      norm_num [HugoniotEOS.hugoniot_P, HugoniotEOS.hugoniot_eos]]
    exact hs 1 (by norm_num)
  · rw [show (6 : ℝ) = (HugoniotEOS.mk "A" 1 1 1).hugoniot_P 2 by
      norm_num [HugoniotEOS.hugoniot_P, HugoniotEOS.hugoniot_eos]]
    exact hs 2 (by norm_num)
  · rw [show (12 : ℝ) = (HugoniotEOS.mk "A" 1 1 1).hugoniot_P 3 by
      norm_num [HugoniotEOS.hugoniot_P, HugoniotEOS.hugoniot_eos]]
    exact hs 3 (by norm_num)

/-- The mixed trace of the single-component "mixture" of the unit material over
`Up_ref = [1, 2, 3]` is `[1, 2, 3]` itself. -/
lemma unit_material_mixedUp :
    mixedUpMany (HugoniotEOS.mk "A" 1 1 1) [(HugoniotEOS.mk "A" 1 1 1, 1)]
      [1, 2, 3] = [1, 2, 3] := by
  obtain ⟨h2, h6, h12⟩ := unit_material_solve_up
  have hP : ([1, 2, 3] : List ℝ).map (HugoniotEOS.mk "A" 1 1 1).hugoniot_P
      = [2, 6, 12] := by
    norm_num [HugoniotEOS.hugoniot_P, HugoniotEOS.hugoniot_eos]
  have hmf : massFracsOf [(HugoniotEOS.mk "A" 1 1 1, 1)] = [1] := by
    have htot : totalMassOf [(HugoniotEOS.mk "A" 1 1 1, 1)] = 1 := by
      norm_num [totalMassOf, massesOf]
    unfold massFracsOf massesOf
    rw [htot]
    norm_num
  unfold mixedUpMany componentUpLists
  rw [hP, hmf]
  simp only [List.map_cons, List.map_nil, h2, h6, h12]
  unfold sumUpSquared
  simp only [List.length_cons, List.length_nil, List.zip_cons_cons, List.zip_nil_right,
    List.foldl_cons, List.foldl_nil, List.replicate, List.zipWith_cons_cons,
    List.zipWith_nil_left, List.map_cons, List.map_nil]
  norm_num
  refine ⟨?_, ?_⟩
  · rw [show (4 : ℝ) = 2 ^ 2 by norm_num, Real.sqrt_sq (by norm_num : (0:ℝ) ≤ 2)]
  · rw [show (9 : ℝ) = 3 ^ 2 by norm_num, Real.sqrt_sq (by norm_num : (0:ℝ) ≤ 3)]

/-- The surviving fit points of the unit material over `Up_ref = [1, 2, 3]`:
both post-first samples pass the `1e-9` filter. -/
lemma unit_material_fitPairs :
    fitPairs (HugoniotEOS.mk "A" 1 1 1) [(HugoniotEOS.mk "A" 1 1 1, 1)]
      [1, 2, 3] = [(2, 6), (3, 12)] := by
  unfold fitPairs
  rw [unit_material_mixedUp,
    show ([1, 2, 3] : List ℝ).map (HugoniotEOS.mk "A" 1 1 1).hugoniot_P
      = [2, 6, 12] by
        norm_num [HugoniotEOS.hugoniot_P, HugoniotEOS.hugoniot_eos]]
  simp only [List.tail_cons, List.zip_cons_cons, List.zip_nil_right,
    List.filter_cons, List.filter_nil, decide_eq_true_eq]
  norm_num

/-- C8 (counterexample).  For the unit material driven over `Up_ref = [1, 2, 3]`
the mixed particle velocities are `[1, 2, 3]`: the first sample has
`mixed_Up[0] = 1`, far above the `1e-9` threshold, yet the points handed to the
regression are only `[2, 3]` — the slice `mixed_Up[1:]` unconditionally discards
sample 0, so exclusion is not only for near-zero values. -/
theorem C8_fit_selection_counterexample :
    mixedUpMany (HugoniotEOS.mk "A" 1 1 1) [(HugoniotEOS.mk "A" 1 1 1, 1)]
      [1, 2, 3] = [1, 2, 3] ∧
    (1e-9 : ℝ) < 1 ∧
    (fitPairs (HugoniotEOS.mk "A" 1 1 1) [(HugoniotEOS.mk "A" 1 1 1, 1)]
      [1, 2, 3]).map Prod.fst = [2, 3] := by
  refine ⟨unit_material_mixedUp, by norm_num, ?_⟩
  rw [unit_material_fitPairs]
  simp

/-- C8 (witness). -/
theorem C8_fit_selection_witness :
    (∀ q ∈ (mixedUpMany (HugoniotEOS.mk "A" 1 1 1)
        [(HugoniotEOS.mk "A" 1 1 1, 1)] [1, 2, 3]).tail.zip
        (([1, 2, 3] : List ℝ).map (HugoniotEOS.mk "A" 1 1 1).hugoniot_P).tail,
      1e-9 < q.1 →
        q ∈ fitPairs (HugoniotEOS.mk "A" 1 1 1)
          [(HugoniotEOS.mk "A" 1 1 1, 1)] [1, 2, 3]) ∧
    (∀ q ∈ fitPairs (HugoniotEOS.mk "A" 1 1 1)
        [(HugoniotEOS.mk "A" 1 1 1, 1)] [1, 2, 3],
      q ∈ (mixedUpMany (HugoniotEOS.mk "A" 1 1 1)
        [(HugoniotEOS.mk "A" 1 1 1, 1)] [1, 2, 3]).tail.zip
        (([1, 2, 3] : List ℝ).map (HugoniotEOS.mk "A" 1 1 1).hugoniot_P).tail ∧
      1e-9 < q.1) ∧
    ∃ r p, generate_mixed_hugoniot_many "mix"
        [(HugoniotEOS.mk "A" 1 1 1, 1)] [1, 2, 3] = .ok r ∧
      linregress ((fitPairs (HugoniotEOS.mk "A" 1 1 1)
          [(HugoniotEOS.mk "A" 1 1 1, 1)] [1, 2, 3]).map Prod.fst)
        ((((fitPairs (HugoniotEOS.mk "A" 1 1 1)
          [(HugoniotEOS.mk "A" 1 1 1, 1)] [1, 2, 3]).map Prod.snd).zip
          ((fitPairs (HugoniotEOS.mk "A" 1 1 1)
          [(HugoniotEOS.mk "A" 1 1 1, 1)] [1, 2, 3]).map Prod.fst)).map fun q =>
            q.1 / (rhoMixOf [(HugoniotEOS.mk "A" 1 1 1, 1)] * q.2)) = .ok p ∧
      r.C0 = p.2 ∧ r.S = p.1 :=
  C8_fit_selection "mix" (HugoniotEOS.mk "A" 1 1 1) 1 [] [1, 2, 3]
    (by simp only [isclose, vfracSum, List.map_cons, List.map_nil,
          List.sum_cons, List.sum_nil, add_zero, sub_self, abs_zero, abs_one]
        norm_num)
    (by norm_num)
    (by rw [unit_material_fitPairs]; norm_num)
    (by rw [unit_material_fitPairs]; norm_num)

/-! ### Claim C5: the common-pressure-frame mixing formula -/

/-- Pointwise value of the `sumUpSquared` fold: entry `k` of the result is the
entry `k` of the accumulator plus the mass-fraction-weighted sum of the squared
component particle velocities at sample `k`. -/
lemma foldl_sumUpSq_getD : ∀ (ups : List (List ℝ)) (mfs : List ℝ) (acc : List ℝ)
    (k : ℕ), (∀ u ∈ ups, u.length = acc.length) → mfs.length = ups.length →
    k < acc.length →
    ((ups.zip mfs).foldl
      (fun acc q => acc.zipWith (fun a u => a + u ^ 2 * q.2) q.1) acc).getD k 0
      = acc.getD k 0 + ∑ i ∈ Finset.range ups.length,
          (mfs.getD i 0) * ((ups.getD i []).getD k 0) ^ 2 := by
  intro ups
  induction ups with
  | nil => intro mfs acc k _ _ _; simp
  | cons u ups ih =>
      intro mfs acc k hlen hmf hk
      cases mfs with
      | nil => simp at hmf
      | cons mf mfs =>
          have hu : u.length = acc.length := hlen u (by simp)
          have hstep : (acc.zipWith (fun a x => a + x ^ 2 * mf) u).length
              = acc.length := by
            rw [List.length_zipWith, hu, min_self]
          simp only [List.zip_cons_cons, List.foldl_cons]
          rw [ih mfs _ k (fun v hv => by rw [hlen v (by simp [hv]), ← hstep])
            (by simpa using hmf) (by rw [hstep]; exact hk)]
          have hacc1 : (acc.zipWith (fun a x => a + x ^ 2 * mf) u).getD k 0
              = acc.getD k 0 + (u.getD k 0) ^ 2 * mf := by
            rw [List.getD_eq_getElem _ _ (by rw [hstep]; exact hk),
              List.getElem_zipWith,
              List.getD_eq_getElem _ _ hk, List.getD_eq_getElem _ _ (by omega)]
          rw [hacc1, List.length_cons, Finset.sum_range_succ']
          simp only [List.getD_cons_succ, List.getD_cons_zero]
          ring

/-- Pointwise description of the mixed particle-velocity trace: entry `k` is
`sqrt(sum_i massFraction_i * up_i[k]^2)` where `up_i` is component `i`'s
`solve_up` applied to the first material's pressure at reference sample `k`. -/
lemma mixedUpMany_getD (mat1 : HugoniotEOS) (lst : List (HugoniotEOS × ℝ))
    (Up_ref : List ℝ) (k : ℕ) (hk : k < Up_ref.length) :
    (mixedUpMany mat1 lst Up_ref).getD k 0 =
      Real.sqrt (∑ i ∈ Finset.range lst.length,
        (massFracsOf lst).getD i 0 *
          ((lst.getD i (HugoniotEOS.mk "" 0 0 0, 0)).1.solve_up
            (mat1.hugoniot_P (Up_ref.getD k 0))) ^ 2) := by
  unfold mixedUpMany sumUpSquared
  have hlenX : (((componentUpLists lst (Up_ref.map mat1.hugoniot_P)).zip
      (massFracsOf lst)).foldl
      (fun acc q => acc.zipWith (fun a u => a + u ^ 2 * q.2) q.1)
      (List.replicate Up_ref.length 0)).length = Up_ref.length := by
    rw [foldl_sumUpSq_length _ _ _ ?hl, List.length_replicate]
    case hl =>
      intro u hu
      rcases List.mem_map.mp hu with ⟨item, _, rfl⟩
      simp
  rw [List.getD_eq_getElem _ _ (by rw [List.length_map, hlenX]; exact hk),
    List.getElem_map, ← List.getD_eq_getElem _ (0 : ℝ) (by rw [hlenX]; exact hk)]
  rw [foldl_sumUpSq_getD _ _ _ _ ?hl2 ?hm (by simpa using hk)]
  case hl2 =>
    intro u hu
    rcases List.mem_map.mp hu with ⟨item, _, rfl⟩
    simp
  case hm =>
    unfold massFracsOf massesOf componentUpLists
    simp
  rw [List.getD_eq_getElem _ _ (by simpa using hk), List.getElem_replicate,
    zero_add]
  congr 1
  apply Finset.sum_congr
  · unfold componentUpLists
    rw [List.length_map]
  · intro i hi
    have hilt : i < lst.length := by
      have := Finset.mem_range.mp hi
      unfold componentUpLists at this
      simpa using this
    congr 1
    have h1 : (componentUpLists lst (Up_ref.map mat1.hugoniot_P)).getD i []
        = (Up_ref.map mat1.hugoniot_P).map
            (lst.getD i (HugoniotEOS.mk "" 0 0 0, 0)).1.solve_up := by
      unfold componentUpLists
      rw [List.getD_eq_getElem _ _ (by simpa using hilt), List.getElem_map,
        ← List.getD_eq_getElem _ (HugoniotEOS.mk "" 0 0 0, 0) hilt]
    rw [h1, List.getD_eq_getElem _ _ (by simpa using hk), List.getElem_map,
      List.getElem_map, ← List.getD_eq_getElem _ (0 : ℝ) hk]

/-- C5.  On every valid mixture input the trace computation follows the
common-pressure-frame closure: the pressure at sample `k` is the FIRST
component's `hugoniot_P(Up_ref[k])`, each component's particle velocity is its
own `solve_up` at that pressure, and
`mixedUp[k] = sqrt(sum_i massFraction_i * up_i[k]^2)`.  Past validation the
function either returns a model built from this trace or propagates scipy's
identical-x `ValueError` from the regression — no other outcome exists. -/
theorem C5_common_pressure_frame (name : String) (mat1 : HugoniotEOS) (v1 : ℝ)
    (rest : List (HugoniotEOS × ℝ)) (Up_ref : List ℝ)
    (hsum : isclose (vfracSum ((mat1, v1) :: rest)) 1) :
    (generate_mixed_hugoniot_many name ((mat1, v1) :: rest) Up_ref
        = .error .identicalX ∨
      ∃ r, generate_mixed_hugoniot_many name ((mat1, v1) :: rest) Up_ref
        = .ok r) ∧
    ∀ k, k < Up_ref.length →
      (mixedUpMany mat1 ((mat1, v1) :: rest) Up_ref).getD k 0 =
        Real.sqrt (∑ i ∈ Finset.range ((mat1, v1) :: rest).length,
          (massFracsOf ((mat1, v1) :: rest)).getD i 0 *
            ((((mat1, v1) :: rest).getD i (HugoniotEOS.mk "" 0 0 0, 0)).1.solve_up
              (mat1.hugoniot_P (Up_ref.getD k 0))) ^ 2) := by
  constructor
  · cases hfc : fitCoeffs mat1 ((mat1, v1) :: rest) Up_ref with
    | error e =>
        left
        rw [generate_mixed_hugoniot_many_fitError name mat1 v1 rest Up_ref hsum
            e hfc,
          fitCoeffs_error mat1 ((mat1, v1) :: rest) Up_ref e hfc]
    | ok fit =>
        right
        exact ⟨_, generate_mixed_hugoniot_many_ok name mat1 v1 rest Up_ref hsum
          fit hfc⟩
  · exact fun k hk => mixedUpMany_getD mat1 ((mat1, v1) :: rest) Up_ref k hk

/-- C5 (witness). -/
theorem C5_common_pressure_frame_witness :
    (generate_mixed_hugoniot_many "mix" [(HugoniotEOS.mk "A" 1 1 1, 1)] [0, 1]
        = .error .identicalX ∨
      ∃ r, generate_mixed_hugoniot_many "mix" [(HugoniotEOS.mk "A" 1 1 1, 1)]
        [0, 1] = .ok r) ∧
    ∀ k, k < ([0, 1] : List ℝ).length →
      (mixedUpMany (HugoniotEOS.mk "A" 1 1 1)
        [(HugoniotEOS.mk "A" 1 1 1, 1)] [0, 1]).getD k 0 =
        Real.sqrt (∑ i ∈ Finset.range ([(HugoniotEOS.mk "A" 1 1 1, 1)]).length,
          (massFracsOf [(HugoniotEOS.mk "A" 1 1 1, 1)]).getD i 0 *
            ((([(HugoniotEOS.mk "A" 1 1 1, 1)]).getD i
                (HugoniotEOS.mk "" 0 0 0, 0)).1.solve_up
              ((HugoniotEOS.mk "A" 1 1 1).hugoniot_P
                (([0, 1] : List ℝ).getD k 0))) ^ 2) :=
  C5_common_pressure_frame "mix" (HugoniotEOS.mk "A" 1 1 1) 1 [] [0, 1]
    (by simp only [isclose, vfracSum, List.map_cons, List.map_nil,
          List.sum_cons, List.sum_nil, add_zero, sub_self, abs_zero, abs_one]
        norm_num)

/-! ### Claim C10: legacy two-material path vs generic path -/

/-- scipy's biased variance about the mean equals the normal-system determinant
scaled by the squared sample count. -/
lemma ssxm_eq_det (x : List ℝ) (hn : (x.length : ℝ) ≠ 0) :
    (x.map fun t => t ^ 2).sum / (x.length : ℝ) - (x.sum / (x.length : ℝ)) ^ 2
      = ((x.length : ℝ) * (x.map fun t => t ^ 2).sum - x.sum ^ 2)
        / (x.length : ℝ) ^ 2 := by
  field_simp
  ring

/-- On a non-empty sample list whose least-squares normal system is
non-singular, `np.polyfit(x, y, 1)` and `scipy.stats.linregress(x, y)` agree:
scipy's zero-variance guard does not fire and both compute the same
ordinary-least-squares slope and intercept. -/
lemma polyfit1_eq_linregress (x y : List ℝ) (hx : x ≠ [])
    (hdet : (x.length : ℝ) * (x.map fun t => t ^ 2).sum - x.sum ^ 2 ≠ 0) :
    polyfit1 x y = linregress x y := by
  have hn : (x.length : ℝ) ≠ 0 := by
    have : x.length ≠ 0 := fun h => hx (List.length_eq_zero.mp h)
    exact_mod_cast this
  have hssxm : (x.map fun t => t ^ 2).sum / (x.length : ℝ)
      - (x.sum / (x.length : ℝ)) ^ 2 ≠ 0 := by
    rw [ssxm_eq_det x hn]
    exact div_ne_zero hdet (pow_ne_zero 2 hn)
  unfold polyfit1 linregress
  rw [if_neg (by simp [List.isEmpty_iff, hx]),
    if_neg (by simp [List.isEmpty_iff, hx])]
  dsimp only
  rw [if_neg hssxm]
  congr 1
  have hdiv : ∀ a b c : ℝ, c ≠ 0 → (a / c) / (b / c) = a / b := by
    intro a b c hc
    rcases eq_or_ne b 0 with hb | hb
    · simp [hb]
    · field_simp
  have h1 : ((x.zip y).map fun q => q.1 * q.2).sum / (x.length : ℝ)
        - x.sum / (x.length : ℝ) * (y.sum / (x.length : ℝ))
      = ((x.length : ℝ) * ((x.zip y).map fun q => q.1 * q.2).sum
        - x.sum * y.sum) / (x.length : ℝ) ^ 2 := by
    field_simp
    ring
  have h2 : (x.map fun t => t ^ 2).sum / (x.length : ℝ)
        - (x.sum / (x.length : ℝ)) ^ 2
      = ((x.length : ℝ) * (x.map fun t => t ^ 2).sum - x.sum ^ 2)
        / (x.length : ℝ) ^ 2 := by
    field_simp
    ring
  have hslope : (((x.zip y).map fun q => q.1 * q.2).sum / (x.length : ℝ)
        - x.sum / (x.length : ℝ) * (y.sum / (x.length : ℝ)))
      / ((x.map fun t => t ^ 2).sum / (x.length : ℝ)
        - (x.sum / (x.length : ℝ)) ^ 2)
      = ((x.length : ℝ) * ((x.zip y).map fun q => q.1 * q.2).sum
          - x.sum * y.sum)
        / ((x.length : ℝ) * (x.map fun t => t ^ 2).sum - x.sum ^ 2) := by
    rw [h1, h2, hdiv _ _ _ (by positivity)]
  rw [Prod.mk.injEq]
  refine ⟨hslope.symm, ?_⟩
  rw [hslope]
  field_simp
  ring

/-- C10 (counterexample).  For the unit material mixed 50/50 with itself over
the single-sample reference array `[0]` — parameters squarely inside the
claim's hypotheses (all positive, `v1 ∈ (0,1)`, no post-first sample at all) —
the legacy `generate_mixed_hugoniot` dies in `np.polyfit` (empty fit vector,
`TypeError`), while `generate_mixed_hugoniot_many` returns an `.ok` fallback
model: the two paths are not equivalent. -/
theorem C10_refinement_counterexample :
    generate_mixed_hugoniot "mix" (HugoniotEOS.mk "A" 1 1 1)
      (HugoniotEOS.mk "A" 1 1 1) (1 / 2) [0] = .error () ∧
    ∃ r, generate_mixed_hugoniot_many "mix"
      [(HugoniotEOS.mk "A" 1 1 1, 1 / 2), (HugoniotEOS.mk "A" 1 1 1, 1 / 2)]
      [0] = .ok r := by
  constructor
  · simp [generate_mixed_hugoniot, polyfit1]
  · exact ⟨_, generate_mixed_hugoniot_many_ok "mix" (HugoniotEOS.mk "A" 1 1 1)
      (1 / 2) [(HugoniotEOS.mk "A" 1 1 1, 1 / 2)] [0]
      (by simp only [isclose, vfracSum, List.map_cons, List.map_nil,
            List.sum_cons, List.sum_nil]
          norm_num)
      ((HugoniotEOS.mk "A" 1 1 1).C0, 0)
      (fitCoeffs_of_few _ _ _ (by simp [fitPairs]))⟩

/-- C10 (amended).  With both materials fully positive, `v1 ∈ (0,1)`, at least
three nonnegative reference samples, every post-first mixed particle velocity
above the `1e-9` filter, and a non-singular least-squares system, the legacy
two-material `generate_mixed_hugoniot` and
`generate_mixed_hugoniot_many` on `[(m1, v1), (m2, 1-v1)]` agree exactly: same
`rho0` (the two density formulas coincide), same `C0`/`S` (`np.polyfit` and
`scipy.stats.linregress` compute the same OLS fit over the same points, the
first component's trace being recovered exactly by the round trip), same
component names, volume fractions and mass fractions. -/
theorem C10_refinement (name : String) (m1 m2 : HugoniotEOS) (v1 : ℝ)
    (Up : List ℝ)
    (h1rho : 0 < m1.rho0) (h1C : 0 < m1.C0) (h1S : 0 < m1.S)
    (h2rho : 0 < m2.rho0) (hv0 : 0 < v1) (hv1 : v1 < 1)
    (hUp : ∀ u ∈ Up, 0 ≤ u) (hlen3 : 3 ≤ Up.length)
    (hpass : ∀ x ∈ (mixedUpMany m1 [(m1, v1), (m2, 1 - v1)] Up).tail, 1e-9 < x)
    (hdet : (((mixedUpMany m1 [(m1, v1), (m2, 1 - v1)] Up).tail.length : ℝ) *
        ((mixedUpMany m1 [(m1, v1), (m2, 1 - v1)] Up).tail.map
          fun t => t ^ 2).sum
        - (mixedUpMany m1 [(m1, v1), (m2, 1 - v1)] Up).tail.sum ^ 2) ≠ 0) :
    ∃ r : MixedHugoniotEOS,
      generate_mixed_hugoniot name m1 m2 v1 Up = .ok r ∧
      generate_mixed_hugoniot_many name [(m1, v1), (m2, 1 - v1)] Up
        = .ok r := by
  have hr1 : m1.rho0 ≠ 0 := ne_of_gt h1rho
  have hr2 : m2.rho0 ≠ 0 := ne_of_gt h2rho
  have hm1pos : 0 < m1.rho0 * v1 := mul_pos h1rho hv0
  have hm2pos : 0 < m2.rho0 * (1 - v1) := mul_pos h2rho (by linarith)
  have htot : totalMassOf [(m1, v1), (m2, 1 - v1)]
      = m1.rho0 * v1 + m2.rho0 * (1 - v1) := by
    unfold totalMassOf massesOf
    simp
  have htotpos : 0 < totalMassOf [(m1, v1), (m2, 1 - v1)] := by
    rw [htot]; linarith
  have hx1 : convert_volfrac_to_massfrac m1.rho0 m2.rho0 v1
      = m1.rho0 * v1 / totalMassOf [(m1, v1), (m2, 1 - v1)] := by
    unfold convert_volfrac_to_massfrac
    rw [htot]
  have hx1c : 1 - convert_volfrac_to_massfrac m1.rho0 m2.rho0 v1
      = m2.rho0 * (1 - v1) / totalMassOf [(m1, v1), (m2, 1 - v1)] := by
    rw [hx1, htot]
    field_simp
  have hmf : massFracsOf [(m1, v1), (m2, 1 - v1)]
      = [convert_volfrac_to_massfrac m1.rho0 m2.rho0 v1,
         1 - convert_volfrac_to_massfrac m1.rho0 m2.rho0 v1] := by
    unfold massFracsOf massesOf
    simp only [List.map_cons, List.map_nil]
    rw [if_pos htotpos, if_pos htotpos, hx1c, hx1]
  have hrho : (m1.rho0 * v1 + m2.rho0 * (1 - v1)) /
        (m1.rho0 * v1 / m1.rho0 + m2.rho0 * (1 - v1) / m2.rho0)
      = rhoMixOf [(m1, v1), (m2, 1 - v1)] := by
    rw [mul_div_cancel_left₀ _ hr1, mul_div_cancel_left₀ _ hr2]
    unfold rhoMixOf
    simp
  have hu1 : (Up.map m1.hugoniot_P).map m1.solve_up = Up := by
    rw [List.map_map]
    have : Up.map (m1.solve_up ∘ m1.hugoniot_P) = Up.map id :=
      List.map_congr_left fun u hu => by
        simp only [Function.comp_apply, id_eq]
        exact HugoniotEOS.solve_up_hugoniot_P m1 h1rho h1C h1S u (hUp u hu)
    rw [this, List.map_id]
  have hlenU2 : ((Up.map m1.hugoniot_P).map m2.solve_up).length = Up.length := by
    simp
  have hlenMixNew : (mixedUpMany m1 [(m1, v1), (m2, 1 - v1)] Up).length
      = Up.length := mixedUpMany_length _ _ _
  have hmixold : ((Up.zip ((Up.map m1.hugoniot_P).map m2.solve_up)).map fun q =>
        Real.sqrt (q.1 ^ 2 * convert_volfrac_to_massfrac m1.rho0 m2.rho0 v1
          + q.2 ^ 2 * (1 - convert_volfrac_to_massfrac m1.rho0 m2.rho0 v1)))
      = mixedUpMany m1 [(m1, v1), (m2, 1 - v1)] Up := by
    unfold mixedUpMany componentUpLists sumUpSquared
    rw [hmf]
    simp only [List.map_cons, List.map_nil, hu1, List.zip_cons_cons,
      List.zip_nil_right, List.foldl_cons, List.foldl_nil]
    apply List.ext_getElem
    · simp [hlenU2]
    · intro i h1 h2
      simp only [List.getElem_map, List.getElem_zip, List.getElem_zipWith,
        List.getElem_replicate]
      congr 1
      ring
  have hpairs : fitPairs m1 [(m1, v1), (m2, 1 - v1)] Up
      = (mixedUpMany m1 [(m1, v1), (m2, 1 - v1)] Up).tail.zip
        ((Up.map m1.hugoniot_P).tail) := by
    unfold fitPairs
    apply List.filter_eq_self.mpr
    rintro ⟨a, b⟩ hq
    exact decide_eq_true (hpass a (List.of_mem_zip hq).1)
  have hlenztail : ((mixedUpMany m1 [(m1, v1), (m2, 1 - v1)] Up).tail.zip
      ((Up.map m1.hugoniot_P).tail)).length = Up.length - 1 := by
    rw [List.length_zip, List.length_tail, List.length_tail, hlenMixNew,
      List.length_map, min_self]
  have hcount : 2 ≤ (fitPairs m1 [(m1, v1), (m2, 1 - v1)] Up).length := by
    rw [hpairs, hlenztail]
    omega
  have hup_fit : (fitPairs m1 [(m1, v1), (m2, 1 - v1)] Up).map Prod.fst
      = (mixedUpMany m1 [(m1, v1), (m2, 1 - v1)] Up).tail := by
    rw [hpairs]
    exact List.map_fst_zip _ _ (by
      rw [List.length_tail, List.length_tail, hlenMixNew, List.length_map])
  have hp_fit : (fitPairs m1 [(m1, v1), (m2, 1 - v1)] Up).map Prod.snd
      = (Up.map m1.hugoniot_P).tail := by
    rw [hpairs]
    exact List.map_snd_zip _ _ (by
      rw [List.length_tail, List.length_tail, hlenMixNew, List.length_map])
  have hvs : isclose (vfracSum [(m1, v1), (m2, 1 - v1)]) 1 := by
    have : vfracSum [(m1, v1), (m2, 1 - v1)] = 1 := by
      unfold vfracSum
      simp
    rw [this]
    simp only [isclose, sub_self, abs_zero, abs_one]
    norm_num
  have hne : (mixedUpMany m1 [(m1, v1), (m2, 1 - v1)] Up).tail ≠ [] := by
    apply List.ne_nil_of_length_pos
    rw [List.length_tail, hlenMixNew]
    omega
  have hn2 : (((mixedUpMany m1 [(m1, v1), (m2, 1 - v1)] Up).tail.length : ℝ))
      ≠ 0 := by
    rw [List.length_tail, hlenMixNew]
    have hne0 : Up.length - 1 ≠ 0 := by omega
    exact_mod_cast hne0
  have hssxm : ((mixedUpMany m1 [(m1, v1), (m2, 1 - v1)] Up).tail.map
        fun t => t ^ 2).sum
        / (((mixedUpMany m1 [(m1, v1), (m2, 1 - v1)] Up).tail.length : ℝ))
      - ((mixedUpMany m1 [(m1, v1), (m2, 1 - v1)] Up).tail.sum
        / (((mixedUpMany m1 [(m1, v1), (m2, 1 - v1)] Up).tail.length : ℝ))) ^ 2
      ≠ 0 := by
    rw [ssxm_eq_det _ hn2]
    exact div_ne_zero hdet (pow_ne_zero 2 hn2)
  obtain ⟨p, hp⟩ : ∃ p,
      linregress ((mixedUpMany m1 [(m1, v1), (m2, 1 - v1)] Up).tail)
        (((Up.map m1.hugoniot_P).tail.zip
          (mixedUpMany m1 [(m1, v1), (m2, 1 - v1)] Up).tail).map fun q =>
            q.1 / (rhoMixOf [(m1, v1), (m2, 1 - v1)] * q.2)) = .ok p :=
    ⟨_, linregress_ok _ _ hne hssxm⟩
  have hfit : fitCoeffs m1 [(m1, v1), (m2, 1 - v1)] Up = .ok (p.2, p.1) :=
    fitCoeffs_of_enough m1 [(m1, v1), (m2, 1 - v1)] Up (by omega) hcount p
      (by rw [hup_fit, hp_fit]; exact hp)
  refine ⟨⟨name, rhoMixOf [(m1, v1), (m2, 1 - v1)], p.2, p.1,
    [m1.name, m2.name], [v1, 1 - v1],
    [convert_volfrac_to_massfrac m1.rho0 m2.rho0 v1,
     1 - convert_volfrac_to_massfrac m1.rho0 m2.rho0 v1]⟩, ?_, ?_⟩
  · unfold generate_mixed_hugoniot
    dsimp only
    rw [hmixold, hrho, polyfit1_eq_linregress _ _ hne hdet, hp]
  · rw [generate_mixed_hugoniot_many_ok name m1 v1 [(m2, 1 - v1)] Up hvs
      (p.2, p.1) hfit, hmf]
    simp

/-- The unit material inverts the zero pressure to zero particle velocity. -/
lemma unit_material_solve_up_zero :
    (HugoniotEOS.mk "A" 1 1 1).solve_up 0 = 0 := by
  have h := HugoniotEOS.solve_up_hugoniot_P (HugoniotEOS.mk "A" 1 1 1)
    (by norm_num) (by norm_num) (by norm_num) 0 le_rfl
  rw [show (HugoniotEOS.mk "A" 1 1 1).hugoniot_P 0 = 0 by
    norm_num [HugoniotEOS.hugoniot_P, HugoniotEOS.hugoniot_eos]] at h
  exact h

/-- The 50/50 self-mixture of the unit material over `[0, 1, 2]` reproduces the
reference particle velocities. -/
lemma unit_material_mixedUp_pair :
    mixedUpMany (HugoniotEOS.mk "A" 1 1 1)
      [(HugoniotEOS.mk "A" 1 1 1, 1 / 2), (HugoniotEOS.mk "A" 1 1 1, 1 - 1 / 2)]
      [0, 1, 2] = [0, 1, 2] := by
  obtain ⟨h2, h6, _⟩ := unit_material_solve_up
  have h0 := unit_material_solve_up_zero
  have hP : ([0, 1, 2] : List ℝ).map (HugoniotEOS.mk "A" 1 1 1).hugoniot_P
      = [0, 2, 6] := by
    norm_num [HugoniotEOS.hugoniot_P, HugoniotEOS.hugoniot_eos]
  have htot : totalMassOf [(HugoniotEOS.mk "A" 1 1 1, 1 / 2),
      (HugoniotEOS.mk "A" 1 1 1, 1 - 1 / 2)] = 1 := by
    norm_num [totalMassOf, massesOf]
  have hmf : massFracsOf [(HugoniotEOS.mk "A" 1 1 1, 1 / 2),
      (HugoniotEOS.mk "A" 1 1 1, 1 - 1 / 2)] = [1 / 2, 1 / 2] := by
    unfold massFracsOf massesOf
    rw [htot]
    simp only [List.map_cons, List.map_nil]
    rw [if_pos (by norm_num : (0 : ℝ) < 1), if_pos (by norm_num : (0 : ℝ) < 1)]
    norm_num
  unfold mixedUpMany componentUpLists
  rw [hP, hmf]
  simp only [List.map_cons, List.map_nil, h0, h2, h6]
  unfold sumUpSquared
  simp only [List.length_cons, List.length_nil, List.zip_cons_cons,
    List.zip_nil_right, List.foldl_cons, List.foldl_nil, List.replicate,
    List.zipWith_cons_cons, List.zipWith_nil_left, List.map_cons, List.map_nil]
  norm_num
  rw [show (4 : ℝ) = 2 ^ 2 by norm_num, Real.sqrt_sq (by norm_num : (0 : ℝ) ≤ 2)]

/-- C10 (witness). -/
theorem C10_refinement_witness :
    ∃ r : MixedHugoniotEOS,
      generate_mixed_hugoniot "mix" (HugoniotEOS.mk "A" 1 1 1)
        (HugoniotEOS.mk "A" 1 1 1) (1 / 2) [0, 1, 2] = .ok r ∧
      generate_mixed_hugoniot_many "mix"
        [(HugoniotEOS.mk "A" 1 1 1, 1 / 2),
         (HugoniotEOS.mk "A" 1 1 1, 1 - 1 / 2)] [0, 1, 2] = .ok r :=
  C10_refinement "mix" (HugoniotEOS.mk "A" 1 1 1) (HugoniotEOS.mk "A" 1 1 1)
    (1 / 2) [0, 1, 2]
    (by norm_num) (by norm_num) (by norm_num) (by norm_num) (by norm_num)
    (by norm_num)
    (by intro u hu
        simp only [List.mem_cons, List.not_mem_nil, or_false] at hu
        rcases hu with h | h | h <;> rw [h] <;> norm_num)
    (by norm_num)
    (by rw [unit_material_mixedUp_pair]
        intro x hx
        simp only [List.tail_cons, List.mem_cons, List.not_mem_nil, or_false] at hx
        rcases hx with h | h <;> rw [h] <;> norm_num)
    (by rw [unit_material_mixedUp_pair]
        norm_num)
